import Mathlib

/-!
Verification of the real-time audio session core of the JARVIS-Assist
repository (src/utils/audioUtils.ts and the live-session service built on
it).  JavaScript strings of byte values are modelled as `List Nat` of
char codes; machine 16-bit integers are modelled as `Int` with explicit
wrapping arithmetic; audio samples and clock values are modelled as `ℚ`
(the JS float operations involved — multiplication by the power of two
32768, comparison, max, addition of durations — are exact on the
rationals that arise here).
-/

namespace JarvisAssist

/-! ### Base64 (`encodeBase64` / `decodeBase64`, src/utils/audioUtils.ts)

`encodeBase64` builds a binary string whose char codes are exactly the
bytes (each byte is < 256, so `String.fromCharCode` is the identity on
codes) and applies the platform `btoa`; `decodeBase64` applies the
platform `atob` and reads the char codes back.  Strings are modelled by
their lists of char codes, and `btoa`/`atob` by the standard base64
encoding (RFC 4648) they implement on latin-1 strings. -/

/-- Character code of the base64 alphabet entry for a sextet value
(0–25 ↦ `A`–`Z`, 26–51 ↦ `a`–`z`, 52–61 ↦ `0`–`9`, 62 ↦ `+`, 63 ↦ `/`). -/
def b64Char (n : Nat) : Nat :=
  if n < 26 then 65 + n
  else if n < 52 then 97 + (n - 26)
  else if n < 62 then 48 + (n - 52)
  else if n = 62 then 43
  else 47

/-- Inverse of the base64 alphabet: sextet value of a character code. -/
def b64Inv (c : Nat) : Nat :=
  if 65 ≤ c ∧ c ≤ 90 then c - 65
  else if 97 ≤ c ∧ c ≤ 122 then c - 97 + 26
  else if 48 ≤ c ∧ c ≤ 57 then c - 48 + 52
  else if c = 43 then 62
  else 63

/-- Platform `btoa` on a latin-1 string given by its char codes: groups of
three 8-bit codes become four alphabet characters; a trailing group of one
or two codes is padded with `=` (code 61). -/
def btoa : List Nat → List Nat
  | [] => []
  | [a] => [b64Char (a / 4), b64Char (a % 4 * 16), 61, 61]
  | [a, b] => [b64Char (a / 4), b64Char (a % 4 * 16 + b / 16), b64Char (b % 16 * 4), 61]
  | a :: b :: c :: rest =>
      b64Char (a / 4) :: b64Char (a % 4 * 16 + b / 16) ::
      b64Char (b % 16 * 4 + c / 64) :: b64Char (c % 64) :: btoa rest

/-- Reassembles bytes from a list of sextet values: every complete group
of four sextets yields three bytes, a trailing group of three sextets
yields two bytes and a trailing group of two sextets yields one byte
(mirroring the `=`-padding conventions of `btoa`). -/
def b64Bytes : List Nat → List Nat
  | x :: y :: z :: w :: rest =>
      (x * 4 + y / 16) :: (y % 16 * 16 + z / 4) :: (z % 4 * 64 + w) :: b64Bytes rest
  | [x, y, z] => [x * 4 + y / 16, y % 16 * 16 + z / 4]
  | [x, y] => [x * 4 + y / 16]
  | _ => []

/-- Platform `atob` on a base64 string given by its char codes: drop the
`=` padding, map the alphabet characters back to sextets and reassemble
the bytes. -/
def atob (s : List Nat) : List Nat :=
  b64Bytes ((s.filter (fun c => c != 61)).map b64Inv)

/-- Embeds `decodeBase64` (src/utils/audioUtils.ts:8): `atob` the input,
then read each char code of the binary string into a byte array. -/
def decodeBase64 (base64 : List Nat) : List Nat := atob base64

/-- Embeds `encodeBase64` (src/utils/audioUtils.ts:50): build the binary
string whose i-th char code is the i-th byte, then `btoa` it. -/
def encodeBase64 (bytes : List Nat) : List Nat := btoa bytes

theorem b64Inv_b64Char : ∀ n < 64, b64Inv (b64Char n) = n := by decide

theorem b64Char_ne_61 : ∀ n < 64, (b64Char n != 61) = true := by decide

theorem atob_btoa (l : List Nat) (h : ∀ x ∈ l, x < 256) : atob (btoa l) = l := by
  induction l using btoa.induct with
  | case1 => rfl
  | case2 a =>
      have ha : a < 256 := h a (by simp)
      have h1 : a / 4 < 64 := by omega
      have h2 : a % 4 * 16 < 64 := by omega
      simp only [btoa, atob, List.filter_cons, List.filter_nil, b64Char_ne_61 _ h1,
        b64Char_ne_61 _ h2, if_true, List.map_cons, List.map_nil,
        b64Inv_b64Char _ h1, b64Inv_b64Char _ h2]
      norm_num [b64Bytes]
      omega
  | case3 a b =>
      have ha : a < 256 := h a (by simp)
      have hb : b < 256 := h b (by simp)
      have h1 : a / 4 < 64 := by omega
      have h2 : a % 4 * 16 + b / 16 < 64 := by omega
      have h3 : b % 16 * 4 < 64 := by omega
      have h16 : b / 16 < 16 := by omega
      simp only [btoa, atob, List.filter_cons, List.filter_nil, b64Char_ne_61 _ h1,
        b64Char_ne_61 _ h2, b64Char_ne_61 _ h3, if_true, List.map_cons, List.map_nil,
        b64Inv_b64Char _ h1, b64Inv_b64Char _ h2, b64Inv_b64Char _ h3]
      norm_num [b64Bytes, List.cons.injEq, Nat.add_mul_div_left, Nat.add_mul_mod_self_right,
        Nat.div_eq_of_lt h16, Nat.mod_eq_of_lt h16]
      constructor
      · omega
      · omega
  | case4 a b c rest ih =>
      have ha : a < 256 := h a (by simp)
      have hb : b < 256 := h b (by simp)
      have hc : c < 256 := h c (by simp)
      have h1 : a / 4 < 64 := by omega
      have h2 : a % 4 * 16 + b / 16 < 64 := by omega
      have h3 : b % 16 * 4 + c / 64 < 64 := by omega
      have h4 : c % 64 < 64 := by omega
      have h16 : b / 16 < 16 := by omega
      have h64 : c / 64 < 4 := by omega
      have ih2 := ih (fun x hx => h x (by simp [hx]))
      simp only [btoa, atob, List.filter_cons, b64Char_ne_61 _ h1,
        b64Char_ne_61 _ h2, b64Char_ne_61 _ h3, b64Char_ne_61 _ h4, if_true,
        List.map_cons, b64Inv_b64Char _ h1, b64Inv_b64Char _ h2, b64Inv_b64Char _ h3,
        b64Inv_b64Char _ h4]
      simp only [b64Bytes, List.cons.injEq]
      simp only [atob] at ih2
      rw [ih2]
      norm_num [Nat.add_mul_div_left, Nat.add_mul_mod_self_right,
        Nat.div_eq_of_lt h16, Nat.mod_eq_of_lt h16, Nat.div_eq_of_lt h64, Nat.mod_eq_of_lt h64]
      refine ⟨by omega, by omega, by omega⟩

/-! ### PCM16 capture encoding (`createPcmBlob`, src/utils/audioUtils.ts:65)

The JS loop stores `data[i] * 32768` into an `Int16Array`.  The ECMAScript
`ToInt16` conversion truncates the number toward zero, reduces modulo
2^16 and re-centres into [-32768, 32768).  Multiplication of a float by
the power of two 32768 is exact, so samples are modelled as rationals and
the conversion as an exact function on `ℚ`. -/

/-- Truncation toward zero of a rational, as performed by ECMAScript
`ToInt16` before the modular reduction. -/
def ratTrunc (x : ℚ) : ℤ := if 0 ≤ x then ⌊x⌋ else ⌈x⌉

/-- ECMAScript conversion of a number to a 16-bit signed integer (the
semantics of storing into an `Int16Array`): truncate toward zero, reduce
modulo 2^16, re-centre into [-32768, 32768).  No clamping is performed. -/
def jsToInt16 (x : ℚ) : ℤ :=
  if 32768 ≤ ratTrunc x % 65536 then ratTrunc x % 65536 - 65536
  else ratTrunc x % 65536

/-- Result of `createPcmBlob`: the converted samples together with the
MIME tag.  The byte packing and base64 step (`encodeBase64` over the
`Int16Array` buffer) is modelled separately above; `data` here keeps the
16-bit values themselves. -/
structure PcmBlob where
  data : List Int
  mimeType : String

/-- Embeds `createPcmBlob` (src/utils/audioUtils.ts:65): convert every
sample by `x * 32768` under `Int16Array` store semantics and tag the blob
with the fixed PCM MIME type at 16 kHz. -/
def createPcmBlob (data : List ℚ) : PcmBlob :=
  { data := data.map (fun x => jsToInt16 (x * 32768)),
    mimeType := "audio/pcm;rate=16000" }

theorem ratTrunc_bounds (y : ℚ) (h1 : -32768 ≤ y) (h2 : y < 32768) :
    -32768 ≤ ratTrunc y ∧ ratTrunc y < 32768 := by
  unfold ratTrunc
  split
  · constructor
    · have : (0:ℤ) ≤ ⌊y⌋ := Int.floor_nonneg.mpr (by assumption)
      omega
    · exact Int.floor_lt.mpr (by exact_mod_cast h2)
  · constructor
    · have hm := Int.ceil_mono (show ((-32768 : ℤ) : ℚ) ≤ y by exact_mod_cast h1)
      rwa [Int.ceil_intCast] at hm
    · have : ⌈y⌉ ≤ 0 := Int.ceil_le.mpr (by push_cast; linarith)
      omega

/-! ### Playback scheduling (`playAudioBuffer`, src/utils/audioUtils.ts:86)

Clock values and durations in the output device's time base are modelled
as `ℚ`.  An `AudioBufferSourceNode` is modelled as an opaque handle
(`Nat`); the JS `Set` of active sources becomes a list of handles (the
code only adds, deletes and iterates).  The `audioBuffer`, context and
gain-node arguments enter the computation only through the buffer's
duration and the context's `currentTime`, which are taken as rational
parameters. -/

/-- Result of one `playAudioBuffer` call: the start time passed to
`source.start`, the returned `nextStartTime`, and the updated source set. -/
structure PlayResult where
  scheduledStart : ℚ
  nextStartTime : ℚ
  activeSources : List Nat
deriving DecidableEq

/-- Embeds `playAudioBuffer` (src/utils/audioUtils.ts:86): the start time
is `max(currentNextStartTime, outputAudioContext.currentTime)`, the buffer
is started there, the fresh source handle is added to the active set and
`start + audioBuffer.duration` is returned as the new `nextStartTime`. -/
def playAudioBuffer (duration clockNow currentNextStartTime : ℚ)
    (activeSources : List Nat) (source : Nat) : PlayResult :=
  { scheduledStart := max currentNextStartTime clockNow,
    nextStartTime := max currentNextStartTime clockNow + duration,
    activeSources := activeSources ++ [source] }

/-- Embeds the `ended` listener registered by `playAudioBuffer`: on natural
completion a source deletes itself from the active set. -/
def sourceEnded (source : Nat) (activeSources : List Nat) : List Nat :=
  activeSources.erase source

/-- Runs `playAudioBuffer` over a sequence of inbound buffers, each given
as a pair `(clock value at arrival, buffer duration)`, threading the
returned `nextStartTime` into the next call exactly as the `onmessage`
handler does with `state.playbackNextStartTime`. -/
def scheduleRun (currentNextStartTime : ℚ) : List (ℚ × ℚ) → List PlayResult
  | [] => []
  | (clockNow, d) :: rest =>
      let r := playAudioBuffer d clockNow currentNextStartTime [] 0
      r :: scheduleRun r.nextStartTime rest

/-! ### Live session service (`LiveAssistantService`, src/services)

The stateful service is embedded as explicit state passing: every
callback and method becomes a function `… → LiveState → LiveState × List
Effect`, where the effect list records, in order, the outward-visible
actions (UI callbacks, `source.start`/`source.stop` calls, tool responses,
resource releases).  Nullable resource fields become `Bool` presence
flags; the dynamically typed `sessionPromise` likewise.  `ChatMessage`
ids (`Date.now()`-based strings) are not modelled; the `getJarvisPrefix`
persona string (the constant `JARVIS_PREFIX` from constants.ts, which is
not under src/) and the `JARVIS_ERROR_PREFIX` constant are passed as
string parameters `jarvisTag` and `errTag`. -/

/-- Speaker of a transcript history entry (`sender` field). -/
inductive Sender where
  | user
  | jarvis
deriving DecidableEq

/-- Transcript history entry as pushed by the `turnComplete` branch. -/
structure ChatMessage where
  sender : Sender
  text : String
deriving DecidableEq

/-- One entry of `message.toolCall.functionCalls`. -/
structure FunctionCall where
  id : String
  name : String
deriving DecidableEq

/-- Fields of a `LiveServerMessage` read by the `onmessage` handler.
`outputTranscription`/`inputTranscription` hold the `.text` of the
corresponding object when the object is present; `audioData` holds the
base64 string (as char codes) of
`serverContent.modelTurn.parts[0].inlineData.data` when present. -/
structure LiveMessage where
  outputTranscription : Option String := none
  inputTranscription : Option String := none
  turnComplete : Bool := false
  audioData : Option (List Nat) := none
  interrupted : Bool := false
  toolCalls : Option (List FunctionCall) := none
deriving DecidableEq

/-- The mutable fields of `LiveAssistantService.state`.  Resource handles
(`microphoneStream`, the two audio contexts, script processor, input
source, gain node, `sessionPromise`) are modelled by their presence. -/
structure LiveState where
  isConnecting : Bool
  isConnected : Bool
  transcriptionHistory : List ChatMessage
  currentInputTranscription : String
  currentOutputTranscription : String
  microphoneStream : Bool
  inputAudioContext : Bool
  outputAudioContext : Bool
  inputScriptProcessor : Bool
  inputAudioSource : Bool
  outputGainNode : Bool
  playbackNextStartTime : ℚ
  activeAudioSources : List Nat
  sessionPromise : Bool
deriving DecidableEq

/-- Outward-visible actions of the service, in program order. -/
inductive Effect where
  | transcriptionCb (text : String) (isUser : Bool)
  | audioScheduled (source : Nat) (start : ℚ)
  | audioPlaybackCb
  | sourceStopped (source : Nat)
  | toolResponse (id name result : String)
  | errorCb (msg : String)
  | connectRequested
  | micTracksStopped
  | inputContextClosed
  | outputContextClosed
  | processorDetached
  | inputSourceDetached
  | gainDetached
  | sessionClosed
deriving DecidableEq

/-- Duration of the `AudioBuffer` produced by `decodeAudioData`
(src/utils/audioUtils.ts:26) on the decoded bytes of an inbound payload:
`frameCount / sampleRate` with `frameCount = byteLength / 2` for 16-bit
mono data and the fixed 24000 Hz output rate used by `onmessage`. -/
def bufferDuration (base64Audio : List Nat) : ℚ :=
  (((decodeBase64 base64Audio).length / 2 : ℕ) : ℚ) / 24000

/-- Transcription steps of `onmessage`: the `if (outputTranscription) …
else if (inputTranscription) …` block.  A present transcription object
with empty `.text` takes the branch but appends and notifies nothing
(empty strings are falsy). -/
def handleTranscription (m : LiveMessage) (s : LiveState) : LiveState × List Effect :=
  match m.outputTranscription with
  | some t =>
      if t = "" then (s, [])
      else
        ({ s with currentOutputTranscription := s.currentOutputTranscription ++ t },
         [Effect.transcriptionCb (s.currentOutputTranscription ++ t) false])
  | none =>
      match m.inputTranscription with
      | some t =>
          if t = "" then (s, [])
          else
            ({ s with currentInputTranscription := s.currentInputTranscription ++ t },
             [Effect.transcriptionCb (s.currentInputTranscription ++ t) true])
      | none => (s, [])

/-- Turn-completion step of `onmessage`: push the user turn (trimmed
input partial) and the assistant turn (persona tag plus trimmed output
partial) onto the history and reset both partials, unconditionally on
their contents. -/
def handleTurnComplete (jarvisTag : String) (m : LiveMessage) (s : LiveState) : LiveState :=
  if m.turnComplete then
    { s with
      transcriptionHistory := s.transcriptionHistory ++
        [{ sender := Sender.user, text := s.currentInputTranscription.trim },
         { sender := Sender.jarvis,
           text := jarvisTag ++ " " ++ s.currentOutputTranscription.trim }],
      currentInputTranscription := "",
      currentOutputTranscription := "" }
  else s

/-- Audio step of `onmessage`: when a payload is present and the output
context and gain node exist, decode it and call `playAudioBuffer`,
storing the returned `nextStartTime` and firing the playback callback. -/
def handleAudio (clockNow : ℚ) (fresh : Nat) (m : LiveMessage) (s : LiveState) :
    LiveState × List Effect :=
  match m.audioData with
  | some b64 =>
      if s.outputAudioContext && s.outputGainNode then
        let r := playAudioBuffer (bufferDuration b64) clockNow s.playbackNextStartTime
          s.activeAudioSources fresh
        ({ s with playbackNextStartTime := r.nextStartTime,
                  activeAudioSources := r.activeSources },
         [Effect.audioScheduled fresh r.scheduledStart, Effect.audioPlaybackCb])
      else (s, [])
  | none => (s, [])

/-- Interruption step of `onmessage`: stop every active source, clear the
set and reset `playbackNextStartTime` to 0. -/
def handleInterruption (m : LiveMessage) (s : LiveState) : LiveState × List Effect :=
  if m.interrupted then
    ({ s with activeAudioSources := [], playbackNextStartTime := 0 },
     s.activeAudioSources.map Effect.sourceStopped)
  else (s, [])

/-- Tool-call step of `onmessage`: for each function call, send one
response with the call's id and name and the fixed result string through
`sessionPromise.then` (nothing is sent when the promise slot is null). -/
def handleToolCalls (m : LiveMessage) (s : LiveState) : LiveState × List Effect :=
  match m.toolCalls with
  | some fcs =>
      (s, if s.sessionPromise then
            fcs.map (fun fc =>
              Effect.toolResponse fc.id fc.name
                "Function executed successfully. Data processed.")
          else [])
  | none => (s, [])

/-- Embeds the `onmessage` callback of `LiveAssistantService.startConversation`:
transcription deltas, turn completion, audio payload, interruption and
tool calls are handled in that order on a single message.  `clockNow` is
the output context's `currentTime` when the message is processed and
`fresh` the handle of the source node a payload would create. -/
def onmessage (jarvisTag : String) (clockNow : ℚ) (fresh : Nat) (m : LiveMessage)
    (s : LiveState) : LiveState × List Effect :=
  let p1 := handleTranscription m s
  let s2 := handleTurnComplete jarvisTag m p1.1
  let p3 := handleAudio clockNow fresh m s2
  let p4 := handleInterruption m p3.1
  let p5 := handleToolCalls m p4.1
  (p5.1, p1.2 ++ p3.2 ++ p4.2 ++ p5.2)

/-- Embeds the synchronous part of `startConversation`: when the session
is already connected or connecting, report one error and change nothing;
otherwise mark the state connecting, reset history, partials, playback
clock and active sources, and proceed to the external device/channel
acquisition (the code past the first `await`). -/
def startConversation (errTag : String) (s : LiveState) : LiveState × List Effect :=
  if s.isConnected || s.isConnecting then
    (s, [Effect.errorCb (errTag ++ " Live session already in progress.")])
  else
    ({ s with
        isConnecting := true,
        transcriptionHistory := [],
        currentInputTranscription := "",
        currentOutputTranscription := "",
        playbackNextStartTime := 0,
        activeAudioSources := [] },
     [Effect.connectRequested])

/-- Embeds `stopConversation`: release each resource behind its own null
check, stop and clear active sources, reset the playback clock, close the
session if its promise slot is set and drop the connection flags. -/
def stopConversation (s : LiveState) : LiveState × List Effect :=
  ({ s with
      microphoneStream := false,
      inputAudioContext := false,
      outputAudioContext := false,
      inputScriptProcessor := false,
      inputAudioSource := false,
      outputGainNode := false,
      activeAudioSources := [],
      playbackNextStartTime := 0,
      sessionPromise := false,
      isConnected := false,
      isConnecting := false },
   (if s.microphoneStream then [Effect.micTracksStopped] else []) ++
   (if s.inputAudioContext then [Effect.inputContextClosed] else []) ++
   (if s.outputAudioContext then [Effect.outputContextClosed] else []) ++
   (if s.inputScriptProcessor then [Effect.processorDetached] else []) ++
   (if s.inputAudioSource then [Effect.inputSourceDetached] else []) ++
   (if s.outputGainNode then [Effect.gainDetached] else []) ++
   s.activeAudioSources.map Effect.sourceStopped ++
   (if s.sessionPromise then [Effect.sessionClosed] else []))

/-- A state is idle when both connection flags are down, every resource
slot is empty, no source is active and the playback clock is reset —
the state `stopConversation` leaves behind. -/
def isIdle (s : LiveState) : Prop :=
  s.isConnected = false ∧ s.isConnecting = false ∧
  s.microphoneStream = false ∧ s.inputAudioContext = false ∧
  s.outputAudioContext = false ∧ s.inputScriptProcessor = false ∧
  s.inputAudioSource = false ∧ s.outputGainNode = false ∧
  s.sessionPromise = false ∧ s.activeAudioSources = [] ∧
  s.playbackNextStartTime = 0

/-! ### Event-batch view of the dispatcher

The spec (§4.4) describes a message as a batch of inbound events applied
in a fixed order.  `applyEvent`/`processEvents` give that batch
semantics; two extraction functions differ exactly on the disputed
point: `specEventsOfMessage` follows the spec sentence, in which an
output-transcript delta and an input-transcript delta on the same
message are both applied (output first), while `eventsOfMessage` keeps
the code's `else if`, under which a present output-transcription object
suppresses the input delta. -/

/-- One inbound event of the spec's batch view. -/
inductive InboundEvent where
  | outputDelta (text : String)
  | inputDelta (text : String)
  | turnDone
  | audioPayload (base64Audio : List Nat)
  | interruption
  | toolCallReq (fc : FunctionCall)
deriving DecidableEq

/-- Applies a single inbound event to the session state. -/
def applyEvent (jarvisTag : String) (clockNow : ℚ) (fresh : Nat) (s : LiveState) :
    InboundEvent → LiveState × List Effect
  | InboundEvent.outputDelta t =>
      ({ s with currentOutputTranscription := s.currentOutputTranscription ++ t },
       [Effect.transcriptionCb (s.currentOutputTranscription ++ t) false])
  | InboundEvent.inputDelta t =>
      ({ s with currentInputTranscription := s.currentInputTranscription ++ t },
       [Effect.transcriptionCb (s.currentInputTranscription ++ t) true])
  | InboundEvent.turnDone =>
      ({ s with
          transcriptionHistory := s.transcriptionHistory ++
            [{ sender := Sender.user, text := s.currentInputTranscription.trim },
             { sender := Sender.jarvis,
               text := jarvisTag ++ " " ++ s.currentOutputTranscription.trim }],
          currentInputTranscription := "",
          currentOutputTranscription := "" }, [])
  | InboundEvent.audioPayload b64 =>
      if s.outputAudioContext && s.outputGainNode then
        let r := playAudioBuffer (bufferDuration b64) clockNow s.playbackNextStartTime
          s.activeAudioSources fresh
        ({ s with playbackNextStartTime := r.nextStartTime,
                  activeAudioSources := r.activeSources },
         [Effect.audioScheduled fresh r.scheduledStart, Effect.audioPlaybackCb])
      else (s, [])
  | InboundEvent.interruption =>
      ({ s with activeAudioSources := [], playbackNextStartTime := 0 },
       s.activeAudioSources.map Effect.sourceStopped)
  | InboundEvent.toolCallReq fc =>
      (s, if s.sessionPromise then
            [Effect.toolResponse fc.id fc.name
              "Function executed successfully. Data processed."]
          else [])

/-- Applies a batch of inbound events left to right, concatenating their
effects in order. -/
def processEvents (jarvisTag : String) (clockNow : ℚ) (fresh : Nat) :
    List InboundEvent → LiveState → LiveState × List Effect
  | [], s => (s, [])
  | e :: rest, s =>
      let p1 := applyEvent jarvisTag clockNow fresh s e
      let p2 := processEvents jarvisTag clockNow fresh rest p1.1
      (p2.1, p1.2 ++ p2.2)

/-- Output-transcript delta carried by a message, as an event batch (empty
deltas are falsy and yield nothing). -/
def outputDeltaEvents (m : LiveMessage) : List InboundEvent :=
  match m.outputTranscription with
  | some t => if t = "" then [] else [InboundEvent.outputDelta t]
  | none => []

/-- Input-transcript delta carried by a message, as an event batch. -/
def inputDeltaEvents (m : LiveMessage) : List InboundEvent :=
  match m.inputTranscription with
  | some t => if t = "" then [] else [InboundEvent.inputDelta t]
  | none => []

/-- Transcript deltas under the code's `else if`: a present
output-transcription object suppresses the input delta. -/
def transcriptionEvents (m : LiveMessage) : List InboundEvent :=
  match m.outputTranscription with
  | some _ => outputDeltaEvents m
  | none => inputDeltaEvents m

/-- Turn-completion marker of a message, as an event batch. -/
def turnEvents (m : LiveMessage) : List InboundEvent :=
  if m.turnComplete then [InboundEvent.turnDone] else []

/-- Audio payload of a message, as an event batch. -/
def audioEvents (m : LiveMessage) : List InboundEvent :=
  match m.audioData with
  | some b64 => [InboundEvent.audioPayload b64]
  | none => []

/-- Interruption marker of a message, as an event batch. -/
def interruptionEvents (m : LiveMessage) : List InboundEvent :=
  if m.interrupted then [InboundEvent.interruption] else []

/-- Tool-call requests of a message, in order, as an event batch. -/
def toolEvents (m : LiveMessage) : List InboundEvent :=
  match m.toolCalls with
  | some fcs => fcs.map InboundEvent.toolCallReq
  | none => []

/-- Event batch of a message under the code's dispatch order. -/
def eventsOfMessage (m : LiveMessage) : List InboundEvent :=
  transcriptionEvents m ++ turnEvents m ++ audioEvents m ++
  interruptionEvents m ++ toolEvents m

/-- Modelled from the spec (§4.4, the sentence behind claim C3): the event
batch in the spec's fixed order, in which the output delta and the input
delta are independent steps — a message carrying both yields both deltas,
output first. -/
def specEventsOfMessage (m : LiveMessage) : List InboundEvent :=
  outputDeltaEvents m ++ inputDeltaEvents m ++ turnEvents m ++ audioEvents m ++
  interruptionEvents m ++ toolEvents m

theorem processEvents_append (jarvisTag : String) (clockNow : ℚ) (fresh : Nat)
    (l1 l2 : List InboundEvent) (s : LiveState) :
    processEvents jarvisTag clockNow fresh (l1 ++ l2) s =
      ((processEvents jarvisTag clockNow fresh l2
          (processEvents jarvisTag clockNow fresh l1 s).1).1,
       (processEvents jarvisTag clockNow fresh l1 s).2 ++
       (processEvents jarvisTag clockNow fresh l2
          (processEvents jarvisTag clockNow fresh l1 s).1).2) := by
  induction l1 generalizing s with
  | nil => simp [processEvents]
  | cons e rest ih => simp [processEvents, ih, List.append_assoc]

theorem processEvents_transcription (jarvisTag : String) (clockNow : ℚ) (fresh : Nat)
    (m : LiveMessage) (s : LiveState) :
    processEvents jarvisTag clockNow fresh (transcriptionEvents m) s =
      handleTranscription m s := by
  obtain ⟨o, i, tc, ad, ir, tcs⟩ := m
  unfold transcriptionEvents outputDeltaEvents inputDeltaEvents handleTranscription
  cases o with
  | some t => by_cases ht : t = "" <;> simp [processEvents, applyEvent, ht]
  | none =>
      cases i with
      | some t => by_cases ht : t = "" <;> simp [processEvents, applyEvent, ht]
      | none => simp [processEvents]

theorem processEvents_turn (jarvisTag : String) (clockNow : ℚ) (fresh : Nat)
    (m : LiveMessage) (s : LiveState) :
    processEvents jarvisTag clockNow fresh (turnEvents m) s =
      (handleTurnComplete jarvisTag m s, []) := by
  unfold turnEvents handleTurnComplete
  split <;> simp [processEvents, applyEvent]

theorem processEvents_audio (jarvisTag : String) (clockNow : ℚ) (fresh : Nat)
    (m : LiveMessage) (s : LiveState) :
    processEvents jarvisTag clockNow fresh (audioEvents m) s =
      handleAudio clockNow fresh m s := by
  unfold audioEvents handleAudio
  cases m.audioData with
  | some b64 => simp only [processEvents, applyEvent]; split <;> simp
  | none => simp [processEvents]

theorem processEvents_interruption (jarvisTag : String) (clockNow : ℚ) (fresh : Nat)
    (m : LiveMessage) (s : LiveState) :
    processEvents jarvisTag clockNow fresh (interruptionEvents m) s =
      handleInterruption m s := by
  unfold interruptionEvents handleInterruption
  split <;> simp [processEvents, applyEvent]

theorem processEvents_tool (jarvisTag : String) (clockNow : ℚ) (fresh : Nat)
    (m : LiveMessage) (s : LiveState) :
    processEvents jarvisTag clockNow fresh (toolEvents m) s =
      handleToolCalls m s := by
  unfold toolEvents handleToolCalls
  cases m.toolCalls with
  | some fcs =>
      induction fcs generalizing s with
      | nil => simp [processEvents]
      | cons fc rest ih =>
          simp only [List.map_cons, processEvents, applyEvent]
          rw [ih]
          cases hp : s.sessionPromise <;> simp [applyEvent, hp]
  | none => simp [processEvents]

theorem onmessage_eq_processEvents (jarvisTag : String) (clockNow : ℚ) (fresh : Nat)
    (m : LiveMessage) (s : LiveState) :
    onmessage jarvisTag clockNow fresh m s =
      processEvents jarvisTag clockNow fresh (eventsOfMessage m) s := by
  unfold eventsOfMessage onmessage
  rw [processEvents_append, processEvents_append, processEvents_append,
    processEvents_append, processEvents_transcription, processEvents_turn,
    processEvents_audio, processEvents_interruption, processEvents_tool]
  simp [List.append_assoc]

/-! Frame lemmas: which state fields each `onmessage` step can touch. -/

theorem handleTranscription_frame (m : LiveMessage) (s : LiveState) :
    (handleTranscription m s).1 =
      { s with
        currentInputTranscription := (handleTranscription m s).1.currentInputTranscription,
        currentOutputTranscription := (handleTranscription m s).1.currentOutputTranscription } := by
  obtain ⟨o, i, tc, ad, ir, tcs⟩ := m
  unfold handleTranscription
  cases o with
  | some t => by_cases ht : t = "" <;> simp [ht]
  | none =>
      cases i with
      | some t => by_cases ht : t = "" <;> simp [ht]
      | none => simp

theorem handleTurnComplete_frame (jarvisTag : String) (m : LiveMessage) (s : LiveState) :
    handleTurnComplete jarvisTag m s =
      { s with
        transcriptionHistory := (handleTurnComplete jarvisTag m s).transcriptionHistory,
        currentInputTranscription := (handleTurnComplete jarvisTag m s).currentInputTranscription,
        currentOutputTranscription :=
          (handleTurnComplete jarvisTag m s).currentOutputTranscription } := by
  unfold handleTurnComplete
  split <;> simp

theorem handleAudio_frame (clockNow : ℚ) (fresh : Nat) (m : LiveMessage) (s : LiveState) :
    (handleAudio clockNow fresh m s).1 =
      { s with
        playbackNextStartTime := (handleAudio clockNow fresh m s).1.playbackNextStartTime,
        activeAudioSources := (handleAudio clockNow fresh m s).1.activeAudioSources } := by
  obtain ⟨o, i, tc, ad, ir, tcs⟩ := m
  unfold handleAudio
  cases ad with
  | some b64 =>
      by_cases hg : (s.outputAudioContext && s.outputGainNode) = true <;> simp [hg]
  | none => simp

theorem handleAudio_sources (clockNow : ℚ) (fresh : Nat) (m : LiveMessage) (s : LiveState) :
    ∃ l, (handleAudio clockNow fresh m s).1.activeAudioSources =
      s.activeAudioSources ++ l := by
  obtain ⟨o, i, tc, ad, ir, tcs⟩ := m
  unfold handleAudio
  cases ad with
  | some b64 =>
      by_cases hg : (s.outputAudioContext && s.outputGainNode) = true
      · exact ⟨[fresh], by simp [hg, playAudioBuffer]⟩
      · exact ⟨[], by simp [hg]⟩
  | none => exact ⟨[], by simp⟩

theorem handleToolCalls_fst (m : LiveMessage) (s : LiveState) :
    (handleToolCalls m s).1 = s := by
  obtain ⟨o, i, tc, ad, ir, tcs⟩ := m
  unfold handleToolCalls
  cases tcs <;> simp

theorem handleInterruption_of_interrupted (m : LiveMessage) (s : LiveState)
    (h : m.interrupted = true) :
    handleInterruption m s =
      ({ s with activeAudioSources := [], playbackNextStartTime := 0 },
       s.activeAudioSources.map Effect.sourceStopped) := by
  unfold handleInterruption
  simp [h]

/-! ### Claims -/

/-- Claim C10: for every byte array `b`, `decodeBase64 (encodeBase64 b)`
returns a byte array equal to `b` element by element and of the same
length — the base64 encode/decode pair is a round trip. -/
theorem claim_C10_base64_roundtrip (bytes : List Nat) (h : ∀ x ∈ bytes, x < 256) :
    decodeBase64 (encodeBase64 bytes) = bytes := by
  unfold decodeBase64 encodeBase64
  exact atob_btoa bytes h

theorem claim_C10_base64_roundtrip_witness :
    (∀ x ∈ [0, 77, 255, 128, 1], x < 256) ∧
      decodeBase64 (encodeBase64 [0, 77, 255, 128, 1]) = [0, 77, 255, 128, 1] :=
  ⟨by decide, claim_C10_base64_roundtrip [0, 77, 255, 128, 1] (by decide)⟩

/-- Claim C9: each captured sample `x` is encoded as `x * 32768` truncated
to a 16-bit signed integer with no clamping — for `-1 ≤ x < 1` the encoded
value is `ratTrunc (x * 32768)` unchanged, while full scale `x = 1`
wraps modulo 2^16 to `-32768` instead of clipping — and the resulting
chunk carries the PCM MIME tag at the 16 kHz rate. -/
theorem claim_C9_pcm16_conversion :
    (∀ data : List ℚ,
        (createPcmBlob data).data = data.map (fun x => jsToInt16 (x * 32768)) ∧
        (createPcmBlob data).mimeType = "audio/pcm;rate=16000") ∧
    (∀ x : ℚ, -1 ≤ x → x < 1 → jsToInt16 (x * 32768) = ratTrunc (x * 32768)) ∧
    jsToInt16 ((1 : ℚ) * 32768) = -32768 := by
  refine ⟨fun data => ⟨rfl, rfl⟩, fun x hl hr => ?_, by norm_num [jsToInt16, ratTrunc]⟩
  have h1 : -32768 ≤ x * 32768 := by linarith
  have h2 : x * 32768 < 32768 := by linarith
  have hb := ratTrunc_bounds (x * 32768) h1 h2
  unfold jsToInt16
  omega

theorem claim_C9_pcm16_conversion_witness :
    (-1 ≤ (-1/2 : ℚ) ∧ (-1/2 : ℚ) < 1) ∧
      jsToInt16 ((-1/2 : ℚ) * 32768) = ratTrunc ((-1/2 : ℚ) * 32768) :=
  ⟨by norm_num, claim_C9_pcm16_conversion.2.1 (-1/2) (by norm_num) (by norm_num)⟩

/-- Claim C1: for a sequence of inbound buffers processed without an
interruption, each buffer starts at `max(previous nextStartTime, output
clock at arrival)`, the next start time becomes that start plus the
buffer's duration, and hence the `nextStartTime` values are non-decreasing
across the whole sequence whenever durations are non-negative. -/
theorem claim_C1_gapless_scheduling :
    (∀ (d clockNow next : ℚ) (sources : List Nat) (src : Nat), 0 ≤ d →
        (playAudioBuffer d clockNow next sources src).scheduledStart = max next clockNow ∧
        (playAudioBuffer d clockNow next sources src).nextStartTime =
          (playAudioBuffer d clockNow next sources src).scheduledStart + d ∧
        next ≤ (playAudioBuffer d clockNow next sources src).nextStartTime) ∧
    (∀ (start0 : ℚ) (arrivals : List (ℚ × ℚ)), (∀ p ∈ arrivals, 0 ≤ p.2) →
        (start0 :: (scheduleRun start0 arrivals).map PlayResult.nextStartTime).Chain'
          (· ≤ ·)) := by
  constructor
  · intro d clockNow next sources src hd
    refine ⟨rfl, rfl, ?_⟩
    show next ≤ max next clockNow + d
    have := le_max_left next clockNow
    linarith
  · intro start0 arrivals
    induction arrivals generalizing start0 with
    | nil => intro h; simp [scheduleRun]
    | cons p rest ih =>
        intro h
        obtain ⟨c, d⟩ := p
        have hd : 0 ≤ d := h (c, d) (by simp)
        simp only [scheduleRun, List.map_cons, List.chain'_cons, playAudioBuffer]
        constructor
        · have := le_max_left start0 c
          linarith
        · exact ih (max start0 c + d) (fun q hq => h q (by simp [hq]))

theorem claim_C1_gapless_scheduling_witness :
    (∀ p ∈ [((0:ℚ), (1/2:ℚ)), (2/5, 1/2)], 0 ≤ p.2) ∧
      ((0:ℚ) :: (scheduleRun 0 [((0:ℚ), (1/2:ℚ)), (2/5, 1/2)]).map
        PlayResult.nextStartTime).Chain' (· ≤ ·) :=
  ⟨by norm_num, claim_C1_gapless_scheduling.2 0 _ (by norm_num)⟩

/-- Sample state used by concrete witnesses: an active session with all
resources allocated and nothing pending. -/
def sampleActiveState : LiveState :=
  { isConnecting := false, isConnected := true, transcriptionHistory := [],
    currentInputTranscription := "", currentOutputTranscription := "",
    microphoneStream := true, inputAudioContext := true, outputAudioContext := true,
    inputScriptProcessor := true, inputAudioSource := true, outputGainNode := true,
    playbackNextStartTime := 0, activeAudioSources := [], sessionPromise := true }

/-- Claim C3 counterexample: on a message carrying both an
output-transcript delta ("A") and an input-transcript delta ("B"), the
handler appends only the output delta — the input partial stays empty and
no user-side notification fires — whereas the claim's order (both deltas
applied, output first, as in `specEventsOfMessage`) would leave the input
partial at "B". -/
theorem claim_C3_counterexample :
    (onmessage "J" 0 0
        { outputTranscription := some "A", inputTranscription := some "B" }
        sampleActiveState).1.currentInputTranscription = "" ∧
    Effect.transcriptionCb "B" true ∉
      (onmessage "J" 0 0
        { outputTranscription := some "A", inputTranscription := some "B" }
        sampleActiveState).2 ∧
    (processEvents "J" 0 0
        (specEventsOfMessage
          { outputTranscription := some "A", inputTranscription := some "B" })
        sampleActiveState).1.currentInputTranscription = "B" := by
  refine ⟨rfl, ?_, rfl⟩
  decide

/-- Claim C3 (amended): for every inbound message the handler applies the
applicable steps in the fixed order (1) append output-transcript delta and
notify, (2) append input-transcript delta and notify, (3) finalize the
turn, (4) decode and schedule audio, (5) abort in-flight playback, (6)
forward each tool-call request in order — except that steps (1) and (2)
are mutually exclusive: the input delta is applied only when the message
carries no output-transcription object.  Formally, `onmessage` coincides
with processing the event batch `eventsOfMessage` in that order. -/
theorem claim_C3_dispatch_order (jarvisTag : String) (clockNow : ℚ) (fresh : Nat)
    (m : LiveMessage) (s : LiveState) :
    onmessage jarvisTag clockNow fresh m s =
      processEvents jarvisTag clockNow fresh (eventsOfMessage m) s :=
  onmessage_eq_processEvents jarvisTag clockNow fresh m s

/-! Projection consequences of the frame lemmas, used to chase state fields
through the steps of `onmessage`. -/

theorem hT_playback (m : LiveMessage) (s : LiveState) :
    (handleTranscription m s).1.playbackNextStartTime = s.playbackNextStartTime := by
  rw [handleTranscription_frame]

theorem hT_active (m : LiveMessage) (s : LiveState) :
    (handleTranscription m s).1.activeAudioSources = s.activeAudioSources := by
  rw [handleTranscription_frame]

theorem hT_oc (m : LiveMessage) (s : LiveState) :
    (handleTranscription m s).1.outputAudioContext = s.outputAudioContext := by
  rw [handleTranscription_frame]

theorem hT_og (m : LiveMessage) (s : LiveState) :
    (handleTranscription m s).1.outputGainNode = s.outputGainNode := by
  rw [handleTranscription_frame]

theorem hT_sp (m : LiveMessage) (s : LiveState) :
    (handleTranscription m s).1.sessionPromise = s.sessionPromise := by
  rw [handleTranscription_frame]

theorem hTC_playback (jarvisTag : String) (m : LiveMessage) (s : LiveState) :
    (handleTurnComplete jarvisTag m s).playbackNextStartTime = s.playbackNextStartTime := by
  rw [handleTurnComplete_frame]

theorem hTC_active (jarvisTag : String) (m : LiveMessage) (s : LiveState) :
    (handleTurnComplete jarvisTag m s).activeAudioSources = s.activeAudioSources := by
  rw [handleTurnComplete_frame]

theorem hTC_oc (jarvisTag : String) (m : LiveMessage) (s : LiveState) :
    (handleTurnComplete jarvisTag m s).outputAudioContext = s.outputAudioContext := by
  rw [handleTurnComplete_frame]

theorem hTC_og (jarvisTag : String) (m : LiveMessage) (s : LiveState) :
    (handleTurnComplete jarvisTag m s).outputGainNode = s.outputGainNode := by
  rw [handleTurnComplete_frame]

theorem hTC_sp (jarvisTag : String) (m : LiveMessage) (s : LiveState) :
    (handleTurnComplete jarvisTag m s).sessionPromise = s.sessionPromise := by
  rw [handleTurnComplete_frame]

theorem hA_history (clockNow : ℚ) (fresh : Nat) (m : LiveMessage) (s : LiveState) :
    (handleAudio clockNow fresh m s).1.transcriptionHistory = s.transcriptionHistory := by
  rw [handleAudio_frame]

theorem hA_curIn (clockNow : ℚ) (fresh : Nat) (m : LiveMessage) (s : LiveState) :
    (handleAudio clockNow fresh m s).1.currentInputTranscription =
      s.currentInputTranscription := by
  rw [handleAudio_frame]

theorem hA_curOut (clockNow : ℚ) (fresh : Nat) (m : LiveMessage) (s : LiveState) :
    (handleAudio clockNow fresh m s).1.currentOutputTranscription =
      s.currentOutputTranscription := by
  rw [handleAudio_frame]

theorem hA_oc (clockNow : ℚ) (fresh : Nat) (m : LiveMessage) (s : LiveState) :
    (handleAudio clockNow fresh m s).1.outputAudioContext = s.outputAudioContext := by
  rw [handleAudio_frame]

theorem hA_og (clockNow : ℚ) (fresh : Nat) (m : LiveMessage) (s : LiveState) :
    (handleAudio clockNow fresh m s).1.outputGainNode = s.outputGainNode := by
  rw [handleAudio_frame]

theorem hA_sp (clockNow : ℚ) (fresh : Nat) (m : LiveMessage) (s : LiveState) :
    (handleAudio clockNow fresh m s).1.sessionPromise = s.sessionPromise := by
  rw [handleAudio_frame]

theorem handleInterruption_frame (m : LiveMessage) (s : LiveState) :
    (handleInterruption m s).1 =
      { s with
        playbackNextStartTime := (handleInterruption m s).1.playbackNextStartTime,
        activeAudioSources := (handleInterruption m s).1.activeAudioSources } := by
  unfold handleInterruption
  split <;> simp

theorem hI_history (m : LiveMessage) (s : LiveState) :
    (handleInterruption m s).1.transcriptionHistory = s.transcriptionHistory := by
  rw [handleInterruption_frame]

theorem hI_curIn (m : LiveMessage) (s : LiveState) :
    (handleInterruption m s).1.currentInputTranscription =
      s.currentInputTranscription := by
  rw [handleInterruption_frame]

theorem hI_curOut (m : LiveMessage) (s : LiveState) :
    (handleInterruption m s).1.currentOutputTranscription =
      s.currentOutputTranscription := by
  rw [handleInterruption_frame]

theorem hI_oc (m : LiveMessage) (s : LiveState) :
    (handleInterruption m s).1.outputAudioContext = s.outputAudioContext := by
  rw [handleInterruption_frame]

theorem hI_og (m : LiveMessage) (s : LiveState) :
    (handleInterruption m s).1.outputGainNode = s.outputGainNode := by
  rw [handleInterruption_frame]

theorem hI_sp (m : LiveMessage) (s : LiveState) :
    (handleInterruption m s).1.sessionPromise = s.sessionPromise := by
  rw [handleInterruption_frame]

theorem handleTranscription_none (m : LiveMessage) (s : LiveState)
    (ho : m.outputTranscription = none) (hi : m.inputTranscription = none) :
    handleTranscription m s = (s, []) := by
  unfold handleTranscription
  rw [ho, hi]

theorem handleAudio_effects (clockNow : ℚ) (fresh : Nat) (m : LiveMessage)
    (s : LiveState) (b64 : List Nat) (had : m.audioData = some b64)
    (hoc : s.outputAudioContext = true) (hog : s.outputGainNode = true) :
    (handleAudio clockNow fresh m s).2 =
      [Effect.audioScheduled fresh (max s.playbackNextStartTime clockNow),
       Effect.audioPlaybackCb] := by
  unfold handleAudio
  rw [had]
  simp [hoc, hog, playAudioBuffer]

/-- Any message carrying an audio payload, processed on a state whose
output context and gain node are present, schedules a source to start at
`max(playbackNextStartTime, clock at arrival)`. -/
theorem onmessage_schedules_at (jarvisTag : String) (clockNow : ℚ) (fresh : Nat)
    (m : LiveMessage) (s : LiveState) (b64 : List Nat)
    (had : m.audioData = some b64) (hoc : s.outputAudioContext = true)
    (hog : s.outputGainNode = true) :
    Effect.audioScheduled fresh (max s.playbackNextStartTime clockNow) ∈
      (onmessage jarvisTag clockNow fresh m s).2 := by
  unfold onmessage
  have he := handleAudio_effects clockNow fresh m
    (handleTurnComplete jarvisTag m (handleTranscription m s).1) b64 had
    (by rw [hTC_oc, hT_oc]; exact hoc) (by rw [hTC_og, hT_og]; exact hog)
  rw [hTC_playback, hT_playback] at he
  simp [he]

/-- Claim C2: after processing any message carrying the interruption
marker, every handle that was in the active source set has been stopped,
the set is empty and `nextStartTime` is 0; consequently the next audio
payload processed afterwards (at a clock value ≥ 0) is scheduled exactly
at its arrival clock value rather than at the stale pre-interruption
offset. -/
theorem claim_C2_interruption_reset (jarvisTag : String) (clockNow : ℚ) (fresh : Nat)
    (m : LiveMessage) (s : LiveState) (h : m.interrupted = true) :
    (onmessage jarvisTag clockNow fresh m s).1.activeAudioSources = [] ∧
    (onmessage jarvisTag clockNow fresh m s).1.playbackNextStartTime = 0 ∧
    (∀ src ∈ s.activeAudioSources,
        Effect.sourceStopped src ∈ (onmessage jarvisTag clockNow fresh m s).2) ∧
    (∀ (jt2 : String) (clock2 : ℚ) (fresh2 : Nat) (m2 : LiveMessage) (b64 : List Nat),
        m2.audioData = some b64 → 0 ≤ clock2 →
        s.outputAudioContext = true → s.outputGainNode = true →
        Effect.audioScheduled fresh2 clock2 ∈
          (onmessage jt2 clock2 fresh2 m2 (onmessage jarvisTag clockNow fresh m s).1).2) := by
  have hfst : (onmessage jarvisTag clockNow fresh m s).1 =
      { (handleAudio clockNow fresh m
          (handleTurnComplete jarvisTag m (handleTranscription m s).1)).1 with
        activeAudioSources := [], playbackNextStartTime := 0 } := by
    simp only [onmessage]
    rw [handleInterruption_of_interrupted _ _ h, handleToolCalls_fst]
  refine ⟨by rw [hfst], by rw [hfst], ?_, ?_⟩
  · intro src hsrc
    simp only [onmessage]
    rw [handleInterruption_of_interrupted _ _ h]
    obtain ⟨l, hl⟩ := handleAudio_sources clockNow fresh m
      (handleTurnComplete jarvisTag m (handleTranscription m s).1)
    simp only [hl, hTC_active, hT_active]
    simp only [List.map_append, List.mem_append, List.mem_map]
    exact Or.inl (Or.inr (Or.inl ⟨src, hsrc, rfl⟩))
  · intro jt2 clock2 fresh2 m2 b64 had hc hoc hog
    have h0 : (onmessage jarvisTag clockNow fresh m s).1.playbackNextStartTime = 0 := by
      rw [hfst]
    have hoc2 : (onmessage jarvisTag clockNow fresh m s).1.outputAudioContext = true := by
      rw [hfst]
      simpa [hA_oc, hTC_oc, hT_oc] using hoc
    have hog2 : (onmessage jarvisTag clockNow fresh m s).1.outputGainNode = true := by
      rw [hfst]
      simpa [hA_og, hTC_og, hT_og] using hog
    have hm := onmessage_schedules_at jt2 clock2 fresh2 m2
      (onmessage jarvisTag clockNow fresh m s).1 b64 had hoc2 hog2
    rw [h0, max_eq_right hc] at hm
    exact hm

/-- Claim C4: on a message whose only transcript-relevant content is the
turn-complete marker, the history gains exactly one turn — the user entry
being the trimmed input partial and the assistant entry the persona tag
applied to the trimmed output partial — and both partial accumulators are
reset to the empty string, even when one of them was never written. -/
theorem claim_C4_turn_finalization (jarvisTag : String) (clockNow : ℚ) (fresh : Nat)
    (m : LiveMessage) (s : LiveState)
    (ho : m.outputTranscription = none) (hi : m.inputTranscription = none)
    (htc : m.turnComplete = true) :
    (onmessage jarvisTag clockNow fresh m s).1.transcriptionHistory =
      s.transcriptionHistory ++
        [{ sender := Sender.user, text := s.currentInputTranscription.trim },
         { sender := Sender.jarvis,
           text := jarvisTag ++ " " ++ s.currentOutputTranscription.trim }] ∧
    (onmessage jarvisTag clockNow fresh m s).1.currentInputTranscription = "" ∧
    (onmessage jarvisTag clockNow fresh m s).1.currentOutputTranscription = "" := by
  unfold onmessage
  rw [handleTranscription_none m s ho hi]
  have h2 : handleTurnComplete jarvisTag m s =
      { s with
        transcriptionHistory := s.transcriptionHistory ++
          [{ sender := Sender.user, text := s.currentInputTranscription.trim },
           { sender := Sender.jarvis,
             text := jarvisTag ++ " " ++ s.currentOutputTranscription.trim }],
        currentInputTranscription := "",
        currentOutputTranscription := "" } := by
    unfold handleTurnComplete
    rw [htc]
    simp
  simp only [handleToolCalls_fst, hI_history, hI_curIn, hI_curOut,
    hA_history, hA_curIn, hA_curOut, h2]
  exact ⟨trivial, trivial, trivial⟩

/-- Sample state with one active source and a pending playback offset,
used by the interruption witness. -/
def interruptSampleState : LiveState :=
  { sampleActiveState with activeAudioSources := [3], playbackNextStartTime := 5 }

/-- Sample state with accumulated transcript partials, used by the
turn-finalization witness. -/
def turnSampleState : LiveState :=
  { sampleActiveState with
    currentInputTranscription := "Hi",
    currentOutputTranscription := "Hello Sir" }

theorem claim_C2_interruption_reset_witness :
    (({ interrupted := true } : LiveMessage).interrupted = true) ∧
    (onmessage "J" 0 7 { interrupted := true }
        interruptSampleState).1.activeAudioSources = [] ∧
    (onmessage "J" 0 7 { interrupted := true }
        interruptSampleState).1.playbackNextStartTime = 0 ∧
    Effect.sourceStopped 3 ∈
      (onmessage "J" 0 7 { interrupted := true } interruptSampleState).2 :=
  ⟨rfl,
   (claim_C2_interruption_reset "J" 0 7 _ _ rfl).1,
   (claim_C2_interruption_reset "J" 0 7 _ _ rfl).2.1,
   (claim_C2_interruption_reset "J" 0 7 _ _ rfl).2.2.1 3 (by decide)⟩

theorem claim_C4_turn_finalization_witness :
    (({ turnComplete := true } : LiveMessage).outputTranscription = none ∧
     ({ turnComplete := true } : LiveMessage).inputTranscription = none ∧
     ({ turnComplete := true } : LiveMessage).turnComplete = true) ∧
    ((onmessage "Sir." 0 0 { turnComplete := true }
        turnSampleState).1.transcriptionHistory =
      turnSampleState.transcriptionHistory ++
        [{ sender := Sender.user,
           text := turnSampleState.currentInputTranscription.trim },
         { sender := Sender.jarvis,
           text := "Sir." ++ " " ++
             turnSampleState.currentOutputTranscription.trim }] ∧
     (onmessage "Sir." 0 0 { turnComplete := true }
        turnSampleState).1.currentInputTranscription = "" ∧
     (onmessage "Sir." 0 0 { turnComplete := true }
        turnSampleState).1.currentOutputTranscription = "") :=
  ⟨⟨rfl, rfl, rfl⟩, claim_C4_turn_finalization "Sir." 0 0 _ _ rfl rfl rfl⟩

/-! Infrastructure for claim C5: extracting the tool responses from an
effect trace. -/

/-- Tests whether an effect is a `sendToolResponse` call. -/
def isToolResponse : Effect → Bool
  | Effect.toolResponse _ _ _ => true
  | _ => false

/-- The subtrace of `sendToolResponse` calls of an effect trace. -/
def toolResponseEvents (effs : List Effect) : List Effect :=
  effs.filter isToolResponse

/-- The identifiers carried by the `sendToolResponse` calls of a trace,
in order. -/
def toolResponseIds (effs : List Effect) : List String :=
  effs.filterMap fun e =>
    match e with
    | Effect.toolResponse i _ _ => some i
    | _ => none

theorem toolResponseEvents_append (a b : List Effect) :
    toolResponseEvents (a ++ b) = toolResponseEvents a ++ toolResponseEvents b :=
  List.filter_append a b

theorem toolResponseIds_append (a b : List Effect) :
    toolResponseIds (a ++ b) = toolResponseIds a ++ toolResponseIds b :=
  List.filterMap_append a b _

theorem toolResponseEvents_of_none (effs : List Effect)
    (h : ∀ e ∈ effs, isToolResponse e = false) : toolResponseEvents effs = [] := by
  simp only [toolResponseEvents, List.filter_eq_nil_iff]
  intro e he
  simp [h e he]

theorem toolResponseIds_of_none (effs : List Effect)
    (h : ∀ e ∈ effs, isToolResponse e = false) : toolResponseIds effs = [] := by
  induction effs with
  | nil => rfl
  | cons e rest ih =>
      have h1 := h e (by simp)
      have h2 := ih (fun x hx => h x (by simp [hx]))
      cases e <;>
        first
        | simpa [toolResponseIds, List.filterMap_cons] using h2
        | simp [isToolResponse] at h1

theorem no_tr_hT (m : LiveMessage) (s : LiveState) :
    ∀ e ∈ (handleTranscription m s).2, isToolResponse e = false := by
  obtain ⟨o, i, tc, ad, ir, tcs⟩ := m
  unfold handleTranscription
  cases o with
  | some t => by_cases ht : t = "" <;> simp [ht, isToolResponse]
  | none =>
      cases i with
      | some t => by_cases ht : t = "" <;> simp [ht, isToolResponse]
      | none => simp

theorem no_tr_hA (clockNow : ℚ) (fresh : Nat) (m : LiveMessage) (s : LiveState) :
    ∀ e ∈ (handleAudio clockNow fresh m s).2, isToolResponse e = false := by
  obtain ⟨o, i, tc, ad, ir, tcs⟩ := m
  unfold handleAudio
  cases ad with
  | some b64 =>
      by_cases hg : (s.outputAudioContext && s.outputGainNode) = true <;>
        simp [hg, isToolResponse]
  | none => simp

theorem no_tr_hI (m : LiveMessage) (s : LiveState) :
    ∀ e ∈ (handleInterruption m s).2, isToolResponse e = false := by
  unfold handleInterruption
  split
  · intro e he
    simp only [List.mem_map] at he
    obtain ⟨src, _, rfl⟩ := he
    rfl
  · simp

theorem handleToolCalls_effects (m : LiveMessage) (s : LiveState)
    (fcs : List FunctionCall) (h : m.toolCalls = some fcs)
    (hsp : s.sessionPromise = true) :
    (handleToolCalls m s).2 =
      fcs.map (fun fc => Effect.toolResponse fc.id fc.name
        "Function executed successfully. Data processed.") := by
  unfold handleToolCalls
  rw [h]
  simp [hsp]

theorem toolResponseEvents_map (fcs : List FunctionCall) :
    toolResponseEvents (fcs.map (fun fc => Effect.toolResponse fc.id fc.name
      "Function executed successfully. Data processed.")) =
      fcs.map (fun fc => Effect.toolResponse fc.id fc.name
        "Function executed successfully. Data processed.") := by
  induction fcs with
  | nil => rfl
  | cons fc rest ih => simp [toolResponseEvents, List.filter_cons, isToolResponse, ih]

theorem toolResponseIds_map (fcs : List FunctionCall) :
    toolResponseIds (fcs.map (fun fc => Effect.toolResponse fc.id fc.name
      "Function executed successfully. Data processed.")) =
      fcs.map FunctionCall.id := by
  induction fcs with
  | nil => rfl
  | cons fc rest ih =>
      simp only [List.map_cons, toolResponseIds, List.filterMap_cons]
      exact congrArg (List.cons fc.id) ih

/-- Claim C5: for every inbound message carrying tool-call requests (on a
state whose session promise slot is set, as it is while messages are
delivered), the handler issues exactly one `sendToolResponse` per request,
in order, carrying the request's id and name and the fixed result string —
so for every identifier X the number of responses with id X equals the
number of requests with id X: none is left unanswered and none is
answered twice, independent of any executor outcome (the code sends the
fixed success payload unconditionally). -/
theorem claim_C5_tool_call_responses (jarvisTag : String) (clockNow : ℚ)
    (fresh : Nat) (m : LiveMessage) (s : LiveState) (fcs : List FunctionCall)
    (h : m.toolCalls = some fcs) (hsp : s.sessionPromise = true) :
    toolResponseEvents (onmessage jarvisTag clockNow fresh m s).2 =
      fcs.map (fun fc => Effect.toolResponse fc.id fc.name
        "Function executed successfully. Data processed.") ∧
    toolResponseIds (onmessage jarvisTag clockNow fresh m s).2 =
      fcs.map FunctionCall.id ∧
    ∀ X : String,
      (toolResponseIds (onmessage jarvisTag clockNow fresh m s).2).count X =
        (fcs.map FunctionCall.id).count X := by
  have hsp4 : (handleInterruption m (handleAudio clockNow fresh m
      (handleTurnComplete jarvisTag m (handleTranscription m s).1)).1).1.sessionPromise
        = true := by
    rw [hI_sp, hA_sp, hTC_sp, hT_sp]
    exact hsp
  have htc5 := handleToolCalls_effects m _ fcs h hsp4
  simp only [onmessage]
  rw [toolResponseEvents_append, toolResponseEvents_append, toolResponseEvents_append,
    toolResponseIds_append, toolResponseIds_append, toolResponseIds_append,
    toolResponseEvents_of_none _ (no_tr_hT m s),
    toolResponseIds_of_none _ (no_tr_hT m s),
    toolResponseEvents_of_none _ (no_tr_hA clockNow fresh m _),
    toolResponseIds_of_none _ (no_tr_hA clockNow fresh m _),
    toolResponseEvents_of_none _ (no_tr_hI m _),
    toolResponseIds_of_none _ (no_tr_hI m _),
    htc5, toolResponseEvents_map, toolResponseIds_map]
  simp

theorem claim_C5_tool_call_responses_witness :
    (({ toolCalls := some [{ id := "X1", name := "controlLight" },
          { id := "X2", name := "controlLight" }] } : LiveMessage).toolCalls =
        some [{ id := "X1", name := "controlLight" },
          { id := "X2", name := "controlLight" }] ∧
      sampleActiveState.sessionPromise = true) ∧
    toolResponseIds (onmessage "J" 0 0
        { toolCalls := some [{ id := "X1", name := "controlLight" },
            { id := "X2", name := "controlLight" }] } sampleActiveState).2 =
      ["X1", "X2"] :=
  ⟨⟨rfl, rfl⟩, by
    have h := (claim_C5_tool_call_responses "J" 0 0
      { toolCalls := some [{ id := "X1", name := "controlLight" },
          { id := "X2", name := "controlLight" }] }
      sampleActiveState
      [{ id := "X1", name := "controlLight" },
       { id := "X2", name := "controlLight" }] rfl rfl).2.1
    simpa using h⟩

/-- Claim C6: calling `startConversation` while the session is connected
or connecting reports exactly one error to the caller and performs no
other action — the returned state is the input state unchanged in every
field. -/
theorem claim_C6_start_rejected (errTag : String) (s : LiveState)
    (h : s.isConnected = true ∨ s.isConnecting = true) :
    startConversation errTag s =
      (s, [Effect.errorCb (errTag ++ " Live session already in progress.")]) := by
  unfold startConversation
  rcases h with h | h <;> simp [h]

theorem claim_C6_start_rejected_witness :
    (sampleActiveState.isConnected = true ∨ sampleActiveState.isConnecting = true) ∧
    startConversation "E" sampleActiveState =
      (sampleActiveState,
       [Effect.errorCb ("E" ++ " Live session already in progress.")]) :=
  ⟨Or.inl rfl, claim_C6_start_rejected "E" sampleActiveState (Or.inl rfl)⟩

/-- Claim C7: `stopConversation` is total on every state (each release is
behind its own presence check, so it never raises, even before any
resource was allocated) and idempotent: one call leaves the state idle,
and a second consecutive call performs no outward action and returns the
identical idle state. -/
theorem claim_C7_stop_idempotent (s : LiveState) :
    isIdle (stopConversation s).1 ∧
    stopConversation (stopConversation s).1 = ((stopConversation s).1, []) := by
  constructor
  · unfold stopConversation isIdle
    simp
  · unfold stopConversation
    simp

/-- Claim C8 counterexample: tearing down a session whose transcript
partials hold "Hi" and "Hello Sir" leaves both partials in place —
`stopConversation` never touches `currentInputTranscription` or
`currentOutputTranscription`, contradicting the claim that teardown
clears the aggregator partials. -/
theorem claim_C8_counterexample :
    ¬((stopConversation turnSampleState).1.currentInputTranscription = "" ∧
      (stopConversation turnSampleState).1.currentOutputTranscription = "") := by
  decide

/-- Claim C8 (amended): teardown leaves both transcript partial
accumulators unchanged in every state — including tearing down a live
session with accumulated partials; the state teardown leaves behind is
not connected or connecting, and the synchronous prefix of the next
`startConversation` call on it is accepted and resets both accumulators
to the empty string. -/
theorem claim_C8_teardown_partials (s : LiveState) (errTag : String) :
    (stopConversation s).1.currentInputTranscription = s.currentInputTranscription ∧
    (stopConversation s).1.currentOutputTranscription = s.currentOutputTranscription ∧
    (startConversation errTag
      (stopConversation s).1).1.currentInputTranscription = "" ∧
    (startConversation errTag
      (stopConversation s).1).1.currentOutputTranscription = "" := by
  unfold stopConversation startConversation
  simp

end JarvisAssist
